import Mathlib

/-!
Verification model of the openaidy chat frontend.

The definitions below are a shallow embedding of the TypeScript sources:
  * src/frontend/src/services/api.ts   (sendChatCompletion, sendChatCompletionStream)
  * src/unnamed/part_001               (the streaming App.handleSendMessage)
  * src/frontend/src/App.tsx           (the non-streaming App.handleSendMessage)
  * src/frontend/src/components/ChatInput.tsx (handleSubmit)

The byte stream of a streaming call is modelled as the list of strings
produced by TextDecoder.decode for the successive reader.read() results
(the decoder is stateful only across split multi-byte characters, which no
claim exercises).  JavaScript runtime values reachable here (JSON.parse
results) are modelled by the inductive type Json; an absent property
(undefined) is modelled by Option.none.
-/

namespace Openaidy

/-- JavaScript Number values are kept as their source token; no claim
compares parsed numbers, only their truthiness. -/
inductive Json where
  | null : Json
  | bool : Bool → Json
  | num : String → Json
  | str : String → Json
  | arr : List Json → Json
  | obj : List (String × Json) → Json

/-! ## Small JavaScript string primitives -/

/-- Whitespace accepted by JSON.parse (RFC 8259). -/
def isJsonWs (c : Char) : Bool :=
  c == ' ' || c == '\t' || c == '\n' || c == '\r'

def skipWs : List Char → List Char
  | [] => []
  | c :: cs => if isJsonWs c then skipWs cs else c :: cs

/-- Splitting on the two-character separator of a blank line, as in
the JavaScript expression chunk.split of "\n\n": leftmost match first,
empty trailing piece kept. -/
def splitSeps : List Char → List (List Char)
  | [] => [[]]
  | '\n' :: '\n' :: rest => [] :: splitSeps rest
  | c :: rest =>
    match splitSeps rest with
    | h :: t => (c :: h) :: t
    | [] => [[c]]

/-- JavaScript String.replace with a plain-string pattern replaces only the
first occurrence and returns the input unchanged when the pattern is absent. -/
def replaceFirstL (pat rep : List Char) : List Char → List Char
  | [] => if pat.isEmpty then rep else []
  | c :: rest =>
    if pat.isPrefixOf (c :: rest) then rep ++ (c :: rest).drop pat.length
    else c :: replaceFirstL pat rep rest

/-- Whitespace removed by JavaScript String.prototype.trim (the ASCII part
plus the common Unicode members; other Zs code points never occur here). -/
def isJsTrimWs (c : Char) : Bool :=
  c == ' ' || c == '\t' || c == '\n' || c == '\r' || c == '\x0b' ||
  c == '\x0c' || c == '\u00A0' || c == '\uFEFF' || c == '\u2028' || c == '\u2029'

def jsTrim (s : String) : String :=
  ⟨((s.data.dropWhile isJsTrimWs).reverse.dropWhile isJsTrimWs).reverse⟩

/-! ## JSON.parse

A recursive-descent parser for RFC 8259 JSON texts, the grammar accepted by
JavaScript JSON.parse.  Recursion into nested values is bounded by a fuel
parameter; since every recursive call first consumes at least one input
character, fuel equal to the input length plus one never runs out. -/

def hexVal? (c : Char) : Option Nat :=
  if '0' ≤ c ∧ c ≤ '9' then some (c.toNat - '0'.toNat)
  else if 'a' ≤ c ∧ c ≤ 'f' then some (c.toNat - 'a'.toNat + 10)
  else if 'A' ≤ c ∧ c ≤ 'F' then some (c.toNat - 'A'.toNat + 10)
  else none

def unescape? (c : Char) : Option Char :=
  if c = '"' then some '"'
  else if c = '\\' then some '\\'
  else if c = '/' then some '/'
  else if c = 'b' then some '\x08'
  else if c = 'f' then some '\x0c'
  else if c = 'n' then some '\n'
  else if c = 'r' then some '\r'
  else if c = 't' then some '\t'
  else none

/-- Body of a JSON string after the opening quote: returns the decoded
characters and the input after the closing quote.  A lone surrogate from a
u-escape is collapsed by Char.ofNat; no claim uses surrogates. -/
def parseStringBody : List Char → Option (List Char × List Char)
  | [] => none
  | '"' :: rest => some ([], rest)
  | '\\' :: 'u' :: h1 :: h2 :: h3 :: h4 :: rest1 =>
    (match hexVal? h1, hexVal? h2, hexVal? h3, hexVal? h4 with
     | some a, some b, some c2, some d =>
       (parseStringBody rest1).map fun p =>
         (Char.ofNat (((a * 16 + b) * 16 + c2) * 16 + d) :: p.1, p.2)
     | _, _, _, _ => none)
  | '\\' :: e :: rest1 =>
    (match unescape? e with
     | some ch => (parseStringBody rest1).map fun p => (ch :: p.1, p.2)
     | none => none)
  | '\\' :: [] => none
  | c :: rest =>
    if 0x20 ≤ c.toNat then (parseStringBody rest).map fun p => (c :: p.1, p.2)
    else none

def spanDigits : List Char → List Char × List Char
  | [] => ([], [])
  | c :: rest =>
    if c.isDigit then
      match spanDigits rest with
      | (ds, r) => (c :: ds, r)
    else ([], c :: rest)

def parseFrac : List Char → Option (List Char × List Char)
  | '.' :: rest =>
    match spanDigits rest with
    | ([], _) => none
    | (ds, r) => some ('.' :: ds, r)
  | cs => some ([], cs)

def parseExp : List Char → Option (List Char × List Char)
  | [] => some ([], [])
  | c :: rest =>
    if c == 'e' || c == 'E' then
      match rest with
      | '+' :: r =>
        (match spanDigits r with
         | ([], _) => none
         | (ds, r1) => some (c :: '+' :: ds, r1))
      | '-' :: r =>
        (match spanDigits r with
         | ([], _) => none
         | (ds, r1) => some (c :: '-' :: ds, r1))
      | r =>
        (match spanDigits r with
         | ([], _) => none
         | (ds, r1) => some (c :: ds, r1))
    else some ([], c :: rest)

/-- JSON number: optional minus, an integer part without a redundant leading
zero, then optional fraction and exponent. -/
def parseNumber (cs : List Char) : Option (Json × List Char) :=
  let p : Option (List Char × List Char) :=
    match cs with
    | '-' :: '0' :: rest => some (['-', '0'], rest)
    | '-' :: c :: rest =>
      if c.isDigit then
        match spanDigits rest with
        | (ds, r) => some ('-' :: c :: ds, r)
      else none
    | '0' :: rest => some (['0'], rest)
    | c :: rest =>
      if c.isDigit then
        match spanDigits rest with
        | (ds, r) => some (c :: ds, r)
      else none
    | [] => none
  match p with
  | none => none
  | some (intPart, cs1) =>
    match parseFrac cs1 with
    | none => none
    | some (f, cs2) =>
      match parseExp cs2 with
      | none => none
      | some (e, cs3) => some (.num ⟨intPart ++ f ++ e⟩, cs3)

mutual

def parseValue : Nat → List Char → Option (Json × List Char)
  | 0, _ => none
  | f + 1, cs =>
    match skipWs cs with
    | [] => none
    | '{' :: rest =>
      (match skipWs rest with
       | '}' :: rest1 => some (.obj [], rest1)
       | rest1 => parseMembers f rest1 [])
    | '[' :: rest =>
      (match skipWs rest with
       | ']' :: rest1 => some (.arr [], rest1)
       | rest1 => parseElems f rest1 [])
    | '"' :: rest => (parseStringBody rest).map fun p => (.str ⟨p.1⟩, p.2)
    | 't' :: 'r' :: 'u' :: 'e' :: rest => some (.bool true, rest)
    | 'f' :: 'a' :: 'l' :: 's' :: 'e' :: rest => some (.bool false, rest)
    | 'n' :: 'u' :: 'l' :: 'l' :: rest => some (.null, rest)
    | cs1 => parseNumber cs1

def parseMembers : Nat → List Char → List (String × Json) → Option (Json × List Char)
  | 0, _, _ => none
  | f + 1, cs, acc =>
    match skipWs cs with
    | '"' :: rest =>
      (match parseStringBody rest with
       | none => none
       | some (k, rest1) =>
         match skipWs rest1 with
         | ':' :: rest2 =>
           (match parseValue f rest2 with
            | none => none
            | some (v, rest3) =>
              match skipWs rest3 with
              | ',' :: rest4 => parseMembers f rest4 (acc ++ [(⟨k⟩, v)])
              | '}' :: rest4 => some (.obj (acc ++ [(⟨k⟩, v)]), rest4)
              | _ => none)
         | _ => none)
    | _ => none

def parseElems : Nat → List Char → List Json → Option (Json × List Char)
  | 0, _, _ => none
  | f + 1, cs, acc =>
    match parseValue f cs with
    | none => none
    | some (v, rest) =>
      match skipWs rest with
      | ',' :: rest1 => parseElems f rest1 (acc ++ [v])
      | ']' :: rest1 => some (.arr (acc ++ [v]), rest1)
      | _ => none

end

/-- JSON.parse: a single value with surrounding whitespace and nothing else. -/
def jsonParse (s : String) : Option Json :=
  match parseValue (s.data.length + 1) s.data with
  | some (v, rest) => if (skipWs rest).isEmpty then some v else none
  | none => none

/-! ## JavaScript property access and truthiness -/

/-- Lookup in a parsed object: JSON.parse keeps the last of duplicate keys. -/
def objLookup : List (String × Json) → String → Option Json
  | [], _ => none
  | (k, v) :: rest, key =>
    match objLookup rest key with
    | some v1 => some v1
    | none => if k = key then some v else none

/-- Property access data.k: throws a TypeError when the base is null
(Except.error); on objects it yields the property or undefined (none); on
other values the properties read here (content, content_delta, finished,
error) do not exist, so the access yields undefined. -/
def getProp : Json → String → Except Unit (Option Json)
  | .null, _ => .error ()
  | .obj kvs, k => .ok (objLookup kvs k)
  | _, _ => .ok none

/-- Digits of the mantissa all zero means the numeric value is zero. -/
def numIsZero (raw : String) : Bool :=
  (raw.data.takeWhile fun c => !(c == 'e' || c == 'E')).all fun c =>
    !c.isDigit || c == '0'

/-- JavaScript truthiness of a possibly-undefined value. -/
def truthy : Option Json → Bool
  | none => false
  | some .null => false
  | some (.bool b) => b
  | some (.num raw) => !numIsZero raw
  | some (.str s) => !s.isEmpty
  | some (.arr _) => true
  | some (.obj _) => true

/-! ## The streaming reader of sendChatCompletionStream (api.ts)

Observable behaviour is recorded as a list of callback invocations:
onChunk receives the content and content_delta properties of the parsed
block (possibly undefined), onComplete receives the content of the
assistant ChatMessage it builds, onError receives the error message. -/

inductive Ev where
  | chunk (content delta : Option Json) : Ev
  | complete (content : Option Json) : Ev
  | error (msg : String) : Ev

def marker : List Char := "data: ".data

/-- Block extraction for one decoded read, from api.ts lines 236-239:
split on blank lines, keep segments that start with the marker, strip the
first occurrence of the marker. -/
def extractMsgs (r : String) : List String :=
  ((splitSeps r.data).filter fun seg => marker.isPrefixOf seg).map
    fun seg => (⟨replaceFirstL marker [] seg⟩ : String)

/-- Inner try of the catch branch (api.ts lines 264-268): re-parse the
message and throw when it carries a truthy error property. -/
def errorCheck (msg : String) : Except Unit Unit :=
  match jsonParse msg with
  | none => .error ()
  | some errorData =>
    match getProp errorData "error" with
    | .error e => .error e
    | .ok v => if truthy v then .error () else .ok ()

/-- Catch branch of the message loop (api.ts lines 261-272).  Whatever
errorCheck does — including the explicit throw of the error payload — is
raised inside the same try and caught by the inner catch clause, which
ignores it, so no callback is invoked and nothing escapes. -/
def errorRecovery (msg : String) : List Ev :=
  match errorCheck msg with
  | .ok _ => []
  | .error _ => []

/-- One iteration of the message loop (api.ts lines 241-273).  The state is
the lastChunk variable; the Bool is true when the code executed the early
return after onComplete. -/
def processMsg (st : Option Json) (msg : String) : List Ev × Option Json × Bool :=
  match jsonParse msg with
  | none => (errorRecovery msg, st, false)
  | some data =>
    match getProp data "content" with
    | .error _ => (errorRecovery msg, st, false)
    | .ok c =>
      match getProp data "content_delta" with
      | .error _ => (errorRecovery msg, st, false)
      | .ok d =>
        match getProp data "finished" with
        | .error _ => ([.chunk c d], some data, false)
        | .ok fin =>
          if truthy fin then ([.chunk c d, .complete c], some data, true)
          else ([.chunk c d], some data, false)

def processMsgs : Option Json → List String → List Ev × Option Json × Bool
  | st, [] => ([], st, false)
  | st, m :: ms =>
    match processMsg st m with
    | (evs, st1, true) => (evs, st1, true)
    | (evs, st1, false) =>
      match processMsgs st1 ms with
      | (evs2, st2, ret) => (evs ++ evs2, st2, ret)

/-- The read loop (api.ts lines 228-274): each read is decoded and its
blocks processed; an early return ends the whole call. -/
def runReads : Option Json → List String → List Ev × Option Json × Bool
  | st, [] => ([], st, false)
  | st, r :: rs =>
    match processMsgs st (extractMsgs r) with
    | (evs, st1, true) => (evs, st1, true)
    | (evs, st1, false) =>
      match runReads st1 rs with
      | (evs2, st2, ret) => (evs ++ evs2, st2, ret)

/-- Callback trace of sendChatCompletionStream (api.ts lines 185-291) on a
given list of decoded reads.  After the loop: a missing lastChunk raises
the terminal error, which the outer catch hands to onError; otherwise
onComplete is called with the content of the last chunk.  The TypeError
case of that final property read cannot occur, because lastChunk is only
ever assigned a value whose content access succeeded. -/
def sendChatCompletionStream (reads : List String) : List Ev :=
  match runReads none reads with
  | (evs, _, true) => evs
  | (evs, none, false) =>
    evs ++ [.error "No response received from streaming API"]
  | (evs, some lc, false) =>
    match getProp lc "content" with
    | .ok c => evs ++ [.complete c]
    | .error _ => evs ++ [.error "TypeError"]

/-! ## The chat orchestration loop (src/unnamed/part_001, streaming App) -/

/-- Runtime chat message: the role string and the content value (assistant
messages produced by the stream carry whatever data.content held, so the
content is a JavaScript value, not necessarily a string). -/
structure ChatMsg where
  role : String
  content : Option Json

structure AppSt where
  messages : List ChatMsg
  streaming : Option (Option Json)
  isLoading : Bool

/-- Callback reactions of handleSendMessage (part_001 lines 45-68). -/
def applyEv (st : AppSt) : Ev → AppSt
  | .chunk c _ =>
    { st with streaming := st.streaming.map fun _ => c }
  | .complete c =>
    { st with streaming := none,
              messages := st.messages ++ [⟨"assistant", c⟩],
              isLoading := false }
  | .error m =>
    { st with streaming := none,
              messages := st.messages ++
                [⟨"system", some (.str (if m.isEmpty then "Error processing your request" else m))⟩],
              isLoading := false }

/-- handleSendMessage of the streaming App (part_001 lines 16-86): append
the user message, raise isLoading, install the empty streaming message,
then react to every callback of the streaming call in order. -/
def handleSendMessageStream (st : AppSt) (content : String) (reads : List String) : AppSt :=
  let st1 : AppSt :=
    { messages := st.messages ++ [⟨"user", some (.str content)⟩],
      streaming := some (some (.str "")),
      isLoading := true }
  (sendChatCompletionStream reads).foldl applyEv st1

/-! ## Non-streaming call and the request body (api.ts, App.tsx) -/

def hexDigit (n : Nat) : Char :=
  if n < 10 then Char.ofNat ('0'.toNat + n) else Char.ofNat ('a'.toNat + (n - 10))

/-- Escaping performed by JSON.stringify inside a string literal. -/
def escChar (c : Char) : List Char :=
  if c = '"' then ['\\', '"']
  else if c = '\\' then ['\\', '\\']
  else if c = '\x08' then ['\\', 'b']
  else if c = '\t' then ['\\', 't']
  else if c = '\n' then ['\\', 'n']
  else if c = '\x0c' then ['\\', 'f']
  else if c = '\r' then ['\\', 'r']
  else if c.toNat < 0x20 then
    ['\\', 'u', '0', '0', hexDigit (c.toNat / 16), hexDigit (c.toNat % 16)]
  else [c]

def jsonQuote (s : String) : String :=
  ⟨'"' :: (s.data.map escChar).flatten ++ ['"']⟩

def joinComma (xs : List String) : String :=
  String.intercalate "," xs

/-- JSON.stringify of one formatted message (api.ts lines 49-52): an object
literal with the properties role and content in insertion order. -/
def stringifyMessage (role content : String) : String :=
  "\x7b" ++ jsonQuote "role" ++ ":" ++ jsonQuote role ++ "," ++
  jsonQuote "content" ++ ":" ++ jsonQuote content ++ "\x7d"

/-- JSON.stringify of the request body (api.ts lines 55-58 and 66): the
properties messages and temperature in insertion order; model and
max_tokens are never set, and stringify omits absent properties.  The
temperature literal 0.7 prints as the token 0.7. -/
def stringifyRequestBody (msgs : List (String × String)) : String :=
  "\x7b" ++ jsonQuote "messages" ++ ":[" ++
  joinComma (msgs.map fun p => stringifyMessage p.1 p.2) ++ "]," ++
  jsonQuote "temperature" ++ ":0.7\x7d"

/-- POST body produced by handleSendMessage of App.tsx (lines 11-26)
composed with sendChatCompletion (api.ts lines 46-67): the user message is
appended to the history and every message is formatted to its role and
content properties. -/
def handleSendMessageBody (history : List (String × String)) (content : String) : String :=
  stringifyRequestBody (history ++ [("user", content)])

structure ChatCompletionResponse where
  role : String
  content : String
  model : String

/-- Value returned by a successful sendChatCompletion (api.ts lines 78-82):
the role field is the role of the parsed response passed through (the
TypeScript cast does not change the runtime value); the id is an opaque
timestamp and is not modelled. -/
def sendChatCompletion (_messages : List ChatMsg) (resp : ChatCompletionResponse) : ChatMsg :=
  ⟨resp.role, some (.str resp.content)⟩

/-- Modelled from the spec: the backend handler of POST /api/chat/completions
is not under src/ (only the frontend client is present).  Spec section 6
gives its response shape as role, content and model, and section 8 states
that the returned role is always assistant. -/
def backendResponseWellFormed (resp : ChatCompletionResponse) : Prop :=
  resp.role = "assistant"

/-! ## ChatInput.handleSubmit (ChatInput.tsx lines 38-86) -/

/-- Value held in the inputValues record: string, number or boolean. -/
inductive JsVal where
  | str : String → JsVal
  | num : String → JsVal
  | boolV : Bool → JsVal

structure InputField where
  id : String
  type : String
  required : Bool

structure AgentCfg where
  inputs : List InputField

/-- Lookup in the inputValues record; none models undefined. -/
def lookupVal : List (String × JsVal) → String → Option JsVal
  | [], _ => none
  | (k, v) :: rest, key => if k = key then some v else lookupVal rest key

/-- Required-field check (ChatInput.tsx lines 43-48): a string value must
have a nonempty trim, any other defined value passes, undefined fails. -/
def requiredFilled (cfg : AgentCfg) (vals : List (String × JsVal)) : Bool :=
  (cfg.inputs.filter fun i => i.required).all fun i =>
    match lookupVal vals i.id with
    | some (.str s) => !(jsTrim s).isEmpty
    | some _ => true
    | none => false

/-- Simple-agent test (ChatInput.tsx lines 53-54): exactly one input of
type text or textarea. -/
def isSimpleAgent (cfg : AgentCfg) : Bool :=
  match cfg.inputs with
  | [i] => i.type == "text" || i.type == "textarea"
  | _ => false

/-- JSON.stringify of the inputValues record (complex-agent branch,
ChatInput.tsx line 73); number values print as their token. -/
def stringifyVals (vals : List (String × JsVal)) : String :=
  "\x7b" ++
  joinComma (vals.map fun p =>
    jsonQuote p.1 ++ ":" ++
    (match p.2 with
     | .str s => jsonQuote s
     | .num raw => raw
     | .boolV b => if b then "true" else "false")) ++
  "\x7d"

/-- handleSubmit of ChatInput.tsx: the message handed to onSendMessage, or
none when no send happens.  The disabled guard is line 40; the required
check lines 42-50; the simple branch lines 52-70 trims the single value and
sends only a nonempty trim (a non-string value there would make the cast
to string throw before any send, hence none); the complex branch line 73
sends the stringified record. -/
def chatInputSubmit (disabled : Bool) (cfg : AgentCfg)
    (vals : List (String × JsVal)) : Option String :=
  if disabled then none
  else if !requiredFilled cfg vals then none
  else if isSimpleAgent cfg then
    match cfg.inputs with
    | input :: _ =>
      (match lookupVal vals input.id with
       | some (.str v) => if !(jsTrim v).isEmpty then some (jsTrim v) else none
       | _ => none)
    | [] => none
  else some (stringifyVals vals)

/-- One submit interaction of the streaming App: ChatInput receives
disabled := isLoading (part_001 via ChatContainer, and App.tsx lines
54-60); when handleSubmit does not call onSendMessage the state is
untouched, otherwise handleSendMessage runs against the reads the
transport will deliver. -/
def submitStep (st : AppSt) (cfg : AgentCfg) (vals : List (String × JsVal))
    (reads : List String) : AppSt :=
  match chatInputSubmit st.isLoading cfg vals with
  | none => st
  | some content => handleSendMessageStream st content reads

/-! ## Chunk encoding for the transport (spec sections 3 and 4.2)

A well-formed backend emission, used to state the streaming round-trip
properties.  The chunk serialisation mirrors the block format
data: <json>\n\n of spec section 6. -/

structure Chunk where
  content : String
  delta : String
  finished : Bool

def chunkJson (c : Chunk) : Json :=
  .obj [("content", .str c.content), ("content_delta", .str c.delta),
        ("finished", .bool c.finished)]

def chunkChars (c : Chunk) : List Char :=
  "\x7b\"content\":\"".data ++ c.content.data ++
  "\",\"content_delta\":\"".data ++ c.delta.data ++
  "\",\"finished\":".data ++
  (if c.finished then "true".data else "false".data) ++ ['\x7d']

def encodeChunk (c : Chunk) : String :=
  ⟨marker ++ chunkChars c ++ ['\n', '\n']⟩

/-- Characters that serialise to themselves inside a JSON string literal. -/
def safeStrB (s : String) : Bool :=
  s.data.all fun ch => !(ch == '"') && !(ch == '\\') && decide (0x20 ≤ ch.toNat)

/-- Propositional form of safeStrB for a character list. -/
def safeL (l : List Char) : Prop :=
  ∀ ch ∈ l, ch ≠ '"' ∧ ch ≠ '\\' ∧ 0x20 ≤ ch.toNat

/-- The onChunk invocation produced by a well-formed chunk. -/
def chunkEv (c : Chunk) : Ev :=
  .chunk (some (.str c.content)) (some (.str c.delta))

def isCompleteB : Ev → Bool
  | .complete _ => true
  | _ => false

/-- No block of any read parses as JSON, so the loop never observes a chunk. -/
def noParsedBlock (reads : List String) : Bool :=
  reads.all fun r => (extractMsgs r).all fun m => (jsonParse m).isNone

/-! ## Helper lemmas -/

theorem errorRecovery_eq_nil (msg : String) : errorRecovery msg = [] := by
  unfold errorRecovery
  cases errorCheck msg <;> rfl

theorem processMsg_unparsed {m : String} (h : jsonParse m = none) (st : Option Json) :
    processMsg st m = ([], st, false) := by
  unfold processMsg
  rw [h, errorRecovery_eq_nil]

theorem processMsgs_unparsed {ms : List String} (h : ∀ m ∈ ms, jsonParse m = none)
    (st : Option Json) : processMsgs st ms = ([], st, false) := by
  induction ms with
  | nil => rfl
  | cons m ms ih =>
    have h1 : jsonParse m = none := h m (by simp)
    have h2 : ∀ m1 ∈ ms, jsonParse m1 = none := fun m1 hm => h m1 (by simp [hm])
    simp [processMsgs, processMsg_unparsed h1, ih h2]

theorem runReads_unparsed {reads : List String}
    (h : ∀ r ∈ reads, ∀ m ∈ extractMsgs r, jsonParse m = none) (st : Option Json) :
    runReads st reads = ([], st, false) := by
  induction reads with
  | nil => rfl
  | cons r rs ih =>
    have h1 : processMsgs st (extractMsgs r) = ([], st, false) :=
      processMsgs_unparsed (h r (by simp)) st
    have h2 : ∀ r1 ∈ rs, ∀ m ∈ extractMsgs r1, jsonParse m = none :=
      fun r1 hr => h r1 (by simp [hr])
    simp [runReads, h1, ih h2]

/-- A read whose blocks contribute nothing and do not return can be removed
from the middle of a stream without changing the run. -/
theorem runReads_middle {r : String}
    (hn : ∀ st, processMsgs st (extractMsgs r) = ([], st, false)) :
    ∀ (pre post : List String) (st : Option Json),
      runReads st (pre ++ r :: post) = runReads st (pre ++ post) := by
  intro pre
  induction pre with
  | nil =>
    intro post st
    simp [runReads, hn st]
  | cons p pre ih =>
    intro post st
    rcases hp : processMsgs st (extractMsgs p) with ⟨evs, st1, ret⟩
    cases ret <;> simp [runReads, hp, ih]

/-! ## Claim C1 -/

/-- C1 counterexample: a stream that delivers one chunk with finished
false and then closes.  The claim says such a call must error with "no
response received" and add exactly one system message; the code instead
calls onComplete with the last chunk and the loop appends an assistant
message "Hi" and no system message. -/
theorem c1_counterexample :
    sendChatCompletionStream
        ["data: \x7b\"content\":\"Hi\",\"content_delta\":\"Hi\",\"finished\":false\x7d\n\n"] =
      [.chunk (some (.str "Hi")) (some (.str "Hi")), .complete (some (.str "Hi"))] ∧
    handleSendMessageStream ⟨[], none, false⟩ ("Hi?")
        ["data: \x7b\"content\":\"Hi\",\"content_delta\":\"Hi\",\"finished\":false\x7d\n\n"] =
      ⟨[⟨"user", some (.str "Hi?")⟩, ⟨"assistant", some (.str "Hi")⟩], none, false⟩ :=
  ⟨rfl, rfl⟩

/-- C1 amended: only when the byte stream ends without any block having
been parsed at all (so no chunk was ever observed) is the call treated as
the terminal error "No response received from streaming API", and then the
orchestration loop appends exactly one system-role error message, no
assistant message, and returns to Idle. -/
theorem c1_amended_no_chunk_error (reads : List String)
    (h : noParsedBlock reads = true) (st : AppSt) (content : String) :
    sendChatCompletionStream reads = [.error "No response received from streaming API"] ∧
    handleSendMessageStream st content reads =
      ⟨st.messages ++ [⟨"user", some (.str content)⟩,
        ⟨"system", some (.str "No response received from streaming API")⟩], none, false⟩ := by
  have h1 : ∀ r ∈ reads, ∀ m ∈ extractMsgs r, jsonParse m = none := by
    simp only [noParsedBlock, List.all_eq_true, Option.isNone_iff_eq_none] at h
    exact h
  have h2 : sendChatCompletionStream reads = [.error "No response received from streaming API"] := by
    unfold sendChatCompletionStream
    rw [runReads_unparsed h1]
    rfl
  refine ⟨h2, ?_⟩
  unfold handleSendMessageStream
  rw [h2]
  simp [applyEv, List.append_assoc]
  rfl

/-- C1 witness: a single unparseable read trips the amended behaviour. -/
theorem c1_witness :
    noParsedBlock ["oops"] = true ∧
    handleSendMessageStream ⟨[], none, false⟩ ("q") ["oops"] =
      ⟨[⟨"user", some (.str "q")⟩,
        ⟨"system", some (.str "No response received from streaming API")⟩], none, false⟩ :=
  ⟨rfl, (c1_amended_no_chunk_error ["oops"] rfl ⟨[], none, false⟩ ("q")).2⟩

/-! ## Claim C3 -/

/-- C3: the claim says an explicit error payload from the backend stops
processing and aborts the turn with the provided message.  The code does
not: the block data: with JSON carrying only an error property is parsed
successfully, so the catch branch holding the error check is never entered,
onChunk fires with undefined content and delta, processing continues, and
the turn ends with onComplete building an assistant message whose content
is undefined — no onError call at all. -/
theorem c3_error_payload_ignored :
    sendChatCompletionStream ["data: \x7b\"error\":\"boom\"\x7d\n\n"] =
      [.chunk none none, .complete none] ∧
    (handleSendMessageStream ⟨[], none, false⟩ ("q")
        ["data: \x7b\"error\":\"boom\"\x7d\n\n"]).messages.map (fun m => m.role) =
      ["user", "assistant"] :=
  ⟨rfl, rfl⟩

/-! ## Claim C4 -/

/-- C4: for every conversation history, a successful non-streaming call
returns a message whose role is assistant; the client passes the backend
role through, and the spec-modelled backend always answers with role
assistant. -/
theorem c4_assistant_role (history : List ChatMsg) (resp : ChatCompletionResponse)
    (h : backendResponseWellFormed resp) :
    (sendChatCompletion history resp).role = "assistant" := h

/-- C4 witness at a concrete history and response. -/
theorem c4_witness :
    backendResponseWellFormed ⟨"assistant", "hello", "gpt"⟩ ∧
    (sendChatCompletion [⟨"user", some (.str "hi")⟩] ⟨"assistant", "hello", "gpt"⟩).role =
      "assistant" :=
  ⟨rfl, c4_assistant_role [⟨"user", some (.str "hi")⟩] ⟨"assistant", "hello", "gpt"⟩ rfl⟩

/-! ## Claim C6 -/

/-- C6: submitting the content "Hello" on an empty history produces the
POST body with exactly one user message and temperature 0.7, in this exact
serialisation. -/
theorem c6_post_body :
    handleSendMessageBody [] ("Hello") =
      "\x7b\"messages\":[\x7b\"role\":\"user\",\"content\":\"Hello\"\x7d],\"temperature\":0.7\x7d" :=
  rfl

/-! ## Claim C7 -/

/-- C7: while a turn is in flight (isLoading true) the submit handler
returns before invoking onSendMessage, so a submit interaction neither
sends a message nor changes the application state — no second request can
start until the current turn finished or errored. -/
theorem c7_no_submit_while_loading (st : AppSt) (cfg : AgentCfg)
    (vals : List (String × JsVal)) (reads : List String) (h : st.isLoading = true) :
    chatInputSubmit st.isLoading cfg vals = none ∧ submitStep st cfg vals reads = st := by
  have h1 : chatInputSubmit st.isLoading cfg vals = none := by
    rw [h]
    rfl
  exact ⟨h1, by unfold submitStep; rw [h1]⟩

/-- C7 witness: a loading state with a filled input ignores the submit. -/
theorem c7_witness :
    (⟨[], none, true⟩ : AppSt).isLoading = true ∧
    submitStep ⟨[], none, true⟩ ⟨[⟨"message", "textarea", true⟩]⟩
      [("message", .str "hi")] [] = ⟨[], none, true⟩ :=
  ⟨rfl, (c7_no_submit_while_loading ⟨[], none, true⟩ ⟨[⟨"message", "textarea", true⟩]⟩
    [("message", .str "hi")] [] rfl).2⟩

/-! ## Claim C9 -/

/-- C9 counterexample: the block data: json terminated by a blank line
whose bytes span two consecutive reads — the JSON in the first read, the
blank line in the second.  The claim says the chunk of such a block is
never delivered; in fact the first read already splits into one segment
holding the marker and the complete payload, so the chunk is delivered and
the call even completes. -/
theorem c9_counterexample :
    sendChatCompletionStream
        ["data: \x7b\"content\":\"Hi\",\"content_delta\":\"Hi\",\"finished\":true\x7d", "\n\n"] =
      [.chunk (some (.str "Hi")) (some (.str "Hi")), .complete (some (.str "Hi"))] :=
  rfl

/-- C9 amended: reads are split on blank lines independently and fragments
are never reassembled across reads; a block not beginning with the marker
contributes nothing to the run, and when the split point falls inside the
marker-plus-JSON payload neither fragment yields a chunk, so the chunk is
lost (a split at the trailing blank line, by contrast, is still delivered
from the first read alone, as the counterexample shows). -/
theorem c9_amended_no_reassembly :
    (∀ (r : String), extractMsgs r = [] → ∀ (pre post : List String),
      sendChatCompletionStream (pre ++ r :: post) = sendChatCompletionStream (pre ++ post)) ∧
    sendChatCompletionStream
        ["data: \x7b\"content\":\"Hi\",\"content_delta\":\"Hi\",\"fini", "shed\":true\x7d\n\n"] =
      [.error "No response received from streaming API"] := by
  refine ⟨?_, rfl⟩
  intro r hr pre post
  have hn : ∀ st, processMsgs st (extractMsgs r) = ([], st, false) := by
    intro st
    rw [hr]
    rfl
  unfold sendChatCompletionStream
  rw [runReads_middle hn pre post]

/-- C9 witness: a markerless read in the middle of a finished stream is
discarded without affecting the outcome. -/
theorem c9_witness :
    extractMsgs ("hello") = [] ∧
    sendChatCompletionStream
        (["data: \x7b\"content\":\"A\",\"content_delta\":\"A\",\"finished\":false\x7d\n\n"] ++
          ("hello") ::
          ["data: \x7b\"content\":\"AB\",\"content_delta\":\"B\",\"finished\":true\x7d\n\n"]) =
      sendChatCompletionStream
        (["data: \x7b\"content\":\"A\",\"content_delta\":\"A\",\"finished\":false\x7d\n\n"] ++
          ["data: \x7b\"content\":\"AB\",\"content_delta\":\"B\",\"finished\":true\x7d\n\n"]) :=
  ⟨rfl, c9_amended_no_reassembly.1 ("hello") rfl
    ["data: \x7b\"content\":\"A\",\"content_delta\":\"A\",\"finished\":false\x7d\n\n"]
    ["data: \x7b\"content\":\"AB\",\"content_delta\":\"B\",\"finished\":true\x7d\n\n"]⟩

/-! ## Claim C5 -/

/-- C5: a malformed block (one that is not valid JSON) arriving between
two valid chunks is skipped without aborting the turn and without changing
anything observable: the callback trace and the final orchestration state
equal those of the same call without the malformed block. -/
theorem c5_malformed_skipped (bad junk : String)
    (h1 : extractMsgs bad = [junk]) (h2 : jsonParse junk = none)
    (pre post : List String) (st : AppSt) (content : String) :
    sendChatCompletionStream (pre ++ bad :: post) = sendChatCompletionStream (pre ++ post) ∧
    handleSendMessageStream st content (pre ++ bad :: post) =
      handleSendMessageStream st content (pre ++ post) := by
  have hn : ∀ s, processMsgs s (extractMsgs bad) = ([], s, false) := by
    intro s
    rw [h1]
    simp [processMsgs, processMsg_unparsed h2]
  have hs : sendChatCompletionStream (pre ++ bad :: post) =
      sendChatCompletionStream (pre ++ post) := by
    unfold sendChatCompletionStream
    rw [runReads_middle hn pre post]
  exact ⟨hs, by unfold handleSendMessageStream; rw [hs]⟩

/-- C5 witness: an invalid-JSON block between an unfinished and a finished
chunk leaves the run unchanged. -/
theorem c5_witness :
    extractMsgs ("data: \x7bboom\n\n") = ["\x7bboom"] ∧
    jsonParse ("\x7bboom") = none ∧
    sendChatCompletionStream
        (["data: \x7b\"content\":\"x\",\"content_delta\":\"x\",\"finished\":false\x7d\n\n"] ++
          ("data: \x7bboom\n\n") ::
          ["data: \x7b\"content\":\"xy\",\"content_delta\":\"y\",\"finished\":true\x7d\n\n"]) =
      sendChatCompletionStream
        (["data: \x7b\"content\":\"x\",\"content_delta\":\"x\",\"finished\":false\x7d\n\n"] ++
          ["data: \x7b\"content\":\"xy\",\"content_delta\":\"y\",\"finished\":true\x7d\n\n"]) :=
  ⟨rfl, rfl,
    (c5_malformed_skipped ("data: \x7bboom\n\n") ("\x7bboom") rfl rfl
      ["data: \x7b\"content\":\"x\",\"content_delta\":\"x\",\"finished\":false\x7d\n\n"]
      ["data: \x7b\"content\":\"xy\",\"content_delta\":\"y\",\"finished\":true\x7d\n\n"]
      ⟨[], none, false⟩ ("q")).1⟩

/-! ## Claim C10 -/

/-- C10: with a single text or textarea input, the submit handler only
ever hands the trimmed input value to onSendMessage, and a value whose
trim is empty (empty or whitespace-only) never invokes the send handler
and leaves the application state, in particular the message list,
unchanged. -/
theorem c10_trimmed_submit (i : InputField) (cfg : AgentCfg)
    (vals : List (String × JsVal)) (v : String)
    (h1 : cfg.inputs = [i]) (h2 : i.type = "text" ∨ i.type = "textarea")
    (h3 : lookupVal vals i.id = some (.str v)) :
    (∀ (d : Bool) (s : String), chatInputSubmit d cfg vals = some s → s = jsTrim v) ∧
    ((jsTrim v).isEmpty = true →
      ∀ (st : AppSt) (reads : List String), submitStep st cfg vals reads = st) := by
  have hsimple : isSimpleAgent cfg = true := by
    rcases h2 with h2 | h2 <;> simp [isSimpleAgent, h1, h2]
  have hbranch : ∀ d : Bool, chatInputSubmit d cfg vals =
      if d = true then none
      else if requiredFilled cfg vals = false then none
      else if (jsTrim v).isEmpty = true then none
      else some (jsTrim v) := by
    intro d
    cases d with
    | true => simp [chatInputSubmit]
    | false =>
      cases hreq : requiredFilled cfg vals with
      | false => simp [chatInputSubmit, hreq]
      | true =>
        simp only [chatInputSubmit, hreq, hsimple, h1, h3, Bool.not_true,
          Bool.false_eq_true, if_false, if_true, Bool.true_eq_false]
        cases hemp : (jsTrim v).isEmpty <;> simp [hemp]
  constructor
  · intro d s hs
    rw [hbranch d] at hs
    split_ifs at hs
    exact (Option.some.injEq _ _ ▸ hs).symm
  · intro hemp st reads
    unfold submitStep
    rw [hbranch st.isLoading]
    cases hl : st.isLoading <;> cases hreq : requiredFilled cfg vals <;>
      simp [hl, hreq, hemp]

/-- C10 witness: a padded value is sent trimmed; a whitespace-only value
changes nothing. -/
theorem c10_witness :
    ("hi" = jsTrim ("  hi  ")) ∧
    submitStep ⟨[], none, false⟩ ⟨[⟨"message", "textarea", true⟩]⟩
      [("message", .str "   ")] [] = ⟨[], none, false⟩ :=
  ⟨(c10_trimmed_submit ⟨"message", "textarea", true⟩ ⟨[⟨"message", "textarea", true⟩]⟩
      [("message", .str "  hi  ")] ("  hi  ") rfl (Or.inr rfl) rfl).1 false "hi" rfl,
   (c10_trimmed_submit ⟨"message", "textarea", true⟩ ⟨[⟨"message", "textarea", true⟩]⟩
      [("message", .str "   ")] ("   ") rfl (Or.inr rfl) rfl).2 rfl ⟨[], none, false⟩ []⟩

/-! ## Claim C8 -/

theorem processMsg_cases (st : Option Json) (m : String) :
    (∃ st1, processMsg st m = ([], st1, false)) ∨
    (∃ c d j, processMsg st m = ([Ev.chunk c d], some j, false)) ∨
    (∃ c d j, processMsg st m = ([Ev.chunk c d, Ev.complete c], some j, true)) := by
  rcases hp : jsonParse m with _ | data
  · exact Or.inl ⟨st, by simp [processMsg, hp, errorRecovery_eq_nil]⟩
  · rcases hc : getProp data "content" with e | c
    · exact Or.inl ⟨st, by simp [processMsg, hp, hc, errorRecovery_eq_nil]⟩
    · rcases hd : getProp data "content_delta" with e | d
      · exact Or.inl ⟨st, by simp [processMsg, hp, hc, hd, errorRecovery_eq_nil]⟩
      · rcases hf : getProp data "finished" with e | fin
        · exact Or.inr (Or.inl ⟨c, d, data, by simp [processMsg, hp, hc, hd, hf]⟩)
        · cases ht : truthy fin
          · exact Or.inr (Or.inl ⟨c, d, data, by simp [processMsg, hp, hc, hd, hf, ht]⟩)
          · exact Or.inr (Or.inr ⟨c, d, data, by simp [processMsg, hp, hc, hd, hf, ht]⟩)

theorem processMsgs_shape (ms : List String) : ∀ st : Option Json,
    (∃ evs st1, processMsgs st ms = (evs, st1, false) ∧ evs.countP isCompleteB = 0) ∨
    (∃ l c st1, processMsgs st ms = (l ++ [Ev.complete c], st1, true) ∧
      l.countP isCompleteB = 0) := by
  induction ms with
  | nil => exact fun st => Or.inl ⟨[], st, rfl, rfl⟩
  | cons m ms ih =>
    intro st
    rcases processMsg_cases st m with ⟨st1, h⟩ | ⟨c, d, j, h⟩ | ⟨c, d, j, h⟩
    · rcases ih st1 with ⟨evs, st2, h2, hcnt⟩ | ⟨l, c, st2, h2, hcnt⟩
      · exact Or.inl ⟨evs, st2, by simp [processMsgs, h, h2], hcnt⟩
      · exact Or.inr ⟨l, c, st2, by simp [processMsgs, h, h2], hcnt⟩
    · rcases ih (some j) with ⟨evs, st2, h2, hcnt⟩ | ⟨l, c1, st2, h2, hcnt⟩
      · refine Or.inl ⟨Ev.chunk c d :: evs, st2, by simp [processMsgs, h, h2], ?_⟩
        simp [List.countP_cons, isCompleteB, hcnt]
      · refine Or.inr ⟨Ev.chunk c d :: l, c1, st2, by simp [processMsgs, h, h2], ?_⟩
        simp [List.countP_cons, isCompleteB, hcnt]
    · refine Or.inr ⟨[Ev.chunk c d], c, some j, by simp [processMsgs, h], ?_⟩
      simp [List.countP_cons, isCompleteB]

theorem runReads_shape (reads : List String) : ∀ st : Option Json,
    (∃ evs st1, runReads st reads = (evs, st1, false) ∧ evs.countP isCompleteB = 0) ∨
    (∃ l c st1, runReads st reads = (l ++ [Ev.complete c], st1, true) ∧
      l.countP isCompleteB = 0) := by
  induction reads with
  | nil => exact fun st => Or.inl ⟨[], st, rfl, rfl⟩
  | cons r rs ih =>
    intro st
    rcases processMsgs_shape (extractMsgs r) st with ⟨evs, st1, h, hcnt⟩ |
      ⟨l, c, st1, h, hcnt⟩
    · rcases ih st1 with ⟨evs2, st2, h2, hcnt2⟩ | ⟨l2, c2, st2, h2, hcnt2⟩
      · refine Or.inl ⟨evs ++ evs2, st2, by simp [runReads, h, h2], ?_⟩
        simp [List.countP_append, hcnt, hcnt2]
      · refine Or.inr ⟨evs ++ l2, c2, st2, by simp [runReads, h, h2], ?_⟩
        simp [List.countP_append, hcnt, hcnt2]
    · exact Or.inr ⟨l, c, st1, by simp [runReads, h], hcnt⟩

/-- In a trace of the shape l ++ [x] where l holds no completion event, any
completion event sits at the very last position. -/
theorem completeLast_aux (x : Ev) : ∀ (pre l suf : List Ev) (e : Ev),
    l.countP isCompleteB = 0 → l ++ [x] = pre ++ e :: suf →
    isCompleteB e = true → suf = [] := by
  intro pre
  induction pre with
  | nil =>
    intro l suf e hcnt heq hc
    cases l with
    | nil =>
      simp only [List.nil_append] at heq
      obtain ⟨h1, h2⟩ := List.cons.injEq .. ▸ heq
      exact h2.symm
    | cons a l =>
      simp only [List.cons_append, List.nil_append] at heq
      obtain ⟨h1, h2⟩ := List.cons.injEq .. ▸ heq
      rw [List.countP_cons, h1, hc] at hcnt
      simp at hcnt
  | cons p pre ih =>
    intro l suf e hcnt heq hc
    cases l with
    | nil =>
      simp only [List.nil_append, List.cons_append] at heq
      obtain ⟨h1, h2⟩ := List.cons.injEq .. ▸ heq
      exact absurd h2.symm (by simp)
    | cons a l =>
      simp only [List.cons_append] at heq
      obtain ⟨h1, h2⟩ := List.cons.injEq .. ▸ heq
      rw [List.countP_cons] at hcnt
      exact ih l suf e (by omega) h2 hc

/-- C8: processing stops at the first finished chunk — across every
streaming call the completion callback fires at most once, and no event
(in particular no onChunk delivery) ever follows a completion event in the
callback trace. -/
theorem c8_complete_terminal (reads : List String) :
    (sendChatCompletionStream reads).countP isCompleteB ≤ 1 ∧
    ∀ (pre suf : List Ev) (e : Ev),
      sendChatCompletionStream reads = pre ++ e :: suf →
      isCompleteB e = true → suf = [] := by
  rcases runReads_shape reads none with ⟨evs, st1, h, hcnt⟩ | ⟨l, c, st1, h, hcnt⟩
  · cases st1 with
    | none =>
      have hs : sendChatCompletionStream reads =
          evs ++ [Ev.error "No response received from streaming API"] := by
        unfold sendChatCompletionStream
        rw [h]
      refine ⟨?_, fun pre suf e heq hc =>
        completeLast_aux _ pre evs suf e hcnt (hs ▸ heq) hc⟩
      rw [hs, List.countP_append]
      simp [hcnt, List.countP_cons, isCompleteB]
    | some lc =>
      rcases hg : getProp lc "content" with e1 | c1
      · have hs : sendChatCompletionStream reads = evs ++ [Ev.error "TypeError"] := by
          unfold sendChatCompletionStream
          rw [h]
          simp [hg]
        refine ⟨?_, fun pre suf e heq hc =>
          completeLast_aux _ pre evs suf e hcnt (hs ▸ heq) hc⟩
        rw [hs, List.countP_append]
        simp [hcnt, List.countP_cons, isCompleteB]
      · have hs : sendChatCompletionStream reads = evs ++ [Ev.complete c1] := by
          unfold sendChatCompletionStream
          rw [h]
          simp [hg]
        refine ⟨?_, fun pre suf e heq hc =>
          completeLast_aux _ pre evs suf e hcnt (hs ▸ heq) hc⟩
        rw [hs, List.countP_append]
        simp [hcnt, List.countP_cons, isCompleteB]
  · have hs : sendChatCompletionStream reads = l ++ [Ev.complete c] := by
      unfold sendChatCompletionStream
      rw [h]
      cases st1 <;> rfl
    refine ⟨?_, fun pre suf e heq hc =>
      completeLast_aux _ pre l suf e hcnt (hs ▸ heq) hc⟩
    rw [hs, List.countP_append]
    simp [hcnt, List.countP_cons, isCompleteB]

/-- C8 witness: on a stream carrying a second chunk after the finished
one, the trace holds exactly one completion and nothing after it. -/
theorem c8_witness :
    (sendChatCompletionStream
        ["data: \x7b\"content\":\"A\",\"content_delta\":\"A\",\"finished\":true\x7d\n\ndata: \x7b\"content\":\"AB\",\"content_delta\":\"B\",\"finished\":false\x7d\n\n"]).countP
      isCompleteB ≤ 1 ∧
    ([] : List Ev) = [] :=
  ⟨(c8_complete_terminal
      ["data: \x7b\"content\":\"A\",\"content_delta\":\"A\",\"finished\":true\x7d\n\ndata: \x7b\"content\":\"AB\",\"content_delta\":\"B\",\"finished\":false\x7d\n\n"]).1,
   (c8_complete_terminal
      ["data: \x7b\"content\":\"A\",\"content_delta\":\"A\",\"finished\":true\x7d\n\ndata: \x7b\"content\":\"AB\",\"content_delta\":\"B\",\"finished\":false\x7d\n\n"]).2
      [Ev.chunk (some (.str "A")) (some (.str "A"))] []
      (Ev.complete (some (.str "A"))) rfl rfl⟩

end Openaidy

namespace Openaidy

/-! ## Claim C2 -/

theorem parseStringBody_safe : ∀ (l : List Char), safeL l →
    ∀ r, parseStringBody (l ++ '"' :: r) = some (l, r) := by
  intro l
  induction l with
  | nil => intro _ r; rfl
  | cons a l ih =>
    intro h r
    obtain ⟨h1, h2, h3⟩ := h a (by simp)
    have hl : safeL l := fun ch hc => h ch (by simp [hc])
    rw [List.cons_append, parseStringBody.eq_def]
    split
    · rename_i heq
      exact absurd heq (by simp)
    · rename_i heq
      obtain ⟨ha, _⟩ := List.cons.injEq .. ▸ heq
      exact absurd ha h1
    · rename_i heq
      obtain ⟨ha, _⟩ := List.cons.injEq .. ▸ heq
      exact absurd ha h2
    · rename_i heq
      obtain ⟨ha, _⟩ := List.cons.injEq .. ▸ heq
      exact absurd ha h2
    · rename_i heq
      obtain ⟨ha, _⟩ := List.cons.injEq .. ▸ heq
      exact absurd ha h2
    · rename_i heq
      obtain ⟨ha, hrest⟩ := List.cons.injEq .. ▸ heq
      rw [if_pos (ha ▸ h3), ← hrest, ih hl r]
      rw [← ha]
      rfl

theorem splitSeps_sep (rest : List Char) :
    splitSeps ('\n' :: '\n' :: rest) = [] :: splitSeps rest := rfl

theorem splitSeps_cons_ne {a : Char} (ha : a ≠ '\n') (l : List Char) :
    splitSeps (a :: l) =
      match splitSeps l with
      | h :: t => (a :: h) :: t
      | [] => [[a]] := by
  rw [splitSeps.eq_def]
  split
  · rename_i heq
    exact absurd heq (by simp)
  · rename_i heq
    obtain ⟨h1, _⟩ := List.cons.injEq .. ▸ heq
    exact absurd h1 ha
  · rename_i heq
    obtain ⟨h1, h2⟩ := List.cons.injEq .. ▸ heq
    rw [← h1, ← h2]

theorem splitSeps_noNl : ∀ (xs : List Char), (∀ ch ∈ xs, ch ≠ '\n') → ∀ ys,
    splitSeps (xs ++ '\n' :: '\n' :: ys) = xs :: splitSeps ys := by
  intro xs
  induction xs with
  | nil => intro _ ys; rfl
  | cons a xs ih =>
    intro hx ys
    have ha : a ≠ '\n' := hx a (by simp)
    rw [List.cons_append, splitSeps_cons_ne ha, ih (fun ch hc => hx ch (by simp [hc])) ys]

theorem step0 (f : Nat) (t : List Char) :
    parseValue (f+5)
        ('{' :: '"' :: 'c' :: 'o' :: 'n' :: 't' :: 'e' :: 'n' :: 't' :: '"' :: ':' :: '"' :: t) =
      match (parseStringBody t).map (fun p => (Json.str ⟨p.1⟩, p.2)) with
      | none => none
      | some (val, rest3) =>
        match skipWs rest3 with
        | ',' :: rest4 => parseMembers (f+3) rest4 [("content", val)]
        | '}' :: rest4 => some (.obj [("content", val)], rest4)
        | _ => none := rfl

theorem step0s (f : Nat) (ct : List Char) (hct : safeL ct) (t : List Char) :
    parseValue (f+5)
        ('{' :: '"' :: 'c' :: 'o' :: 'n' :: 't' :: 'e' :: 'n' :: 't' :: '"' :: ':' :: '"' ::
          (ct ++ '"' :: t)) =
      match skipWs t with
      | ',' :: rest4 => parseMembers (f+3) rest4 [("content", Json.str ⟨ct⟩)]
      | '}' :: rest4 => some (.obj [("content", Json.str ⟨ct⟩)], rest4)
      | _ => none := by
  rw [step0, parseStringBody_safe ct hct]
  rfl

theorem step1 (f : Nat) (acc : List (String × Json)) (t : List Char) :
    parseMembers (f+2)
        ('"' :: 'c' :: 'o' :: 'n' :: 't' :: 'e' :: 'n' :: 't' :: '_' :: 'd' :: 'e' :: 'l' ::
          't' :: 'a' :: '"' :: ':' :: '"' :: t) acc =
      match (parseStringBody t).map (fun p => (Json.str ⟨p.1⟩, p.2)) with
      | none => none
      | some (val, rest3) =>
        match skipWs rest3 with
        | ',' :: rest4 => parseMembers (f+1) rest4 (acc ++ [("content_delta", val)])
        | '}' :: rest4 => some (.obj (acc ++ [("content_delta", val)]), rest4)
        | _ => none := rfl

theorem step1s (f : Nat) (dt : List Char) (hdt : safeL dt) (acc : List (String × Json))
    (t : List Char) :
    parseMembers (f+2)
        ('"' :: 'c' :: 'o' :: 'n' :: 't' :: 'e' :: 'n' :: 't' :: '_' :: 'd' :: 'e' :: 'l' ::
          't' :: 'a' :: '"' :: ':' :: '"' :: (dt ++ '"' :: t)) acc =
      match skipWs t with
      | ',' :: rest4 => parseMembers (f+1) rest4 (acc ++ [("content_delta", Json.str ⟨dt⟩)])
      | '}' :: rest4 => some (.obj (acc ++ [("content_delta", Json.str ⟨dt⟩)]), rest4)
      | _ => none := by
  rw [step1, parseStringBody_safe dt hdt]
  rfl

theorem stepFinT (f : Nat) (acc : List (String × Json)) (rest : List Char) :
    parseMembers (f+2)
        ('"' :: 'f' :: 'i' :: 'n' :: 'i' :: 's' :: 'h' :: 'e' :: 'd' :: '"' :: ':' ::
          't' :: 'r' :: 'u' :: 'e' :: '}' :: rest) acc =
      some (.obj (acc ++ [("finished", .bool true)]), rest) := rfl

theorem stepFinF (f : Nat) (acc : List (String × Json)) (rest : List Char) :
    parseMembers (f+2)
        ('"' :: 'f' :: 'i' :: 'n' :: 'i' :: 's' :: 'h' :: 'e' :: 'd' :: '"' :: ':' ::
          'f' :: 'a' :: 'l' :: 's' :: 'e' :: '}' :: rest) acc =
      some (.obj (acc ++ [("finished", .bool false)]), rest) := rfl

end Openaidy

namespace Openaidy

theorem dataLit1 : ("\x7b\"content\":\"" : String).data =
    ['{', '"', 'c', 'o', 'n', 't', 'e', 'n', 't', '"', ':', '"'] := rfl

theorem dataLit2 : ("\",\"content_delta\":\"" : String).data =
    ['"', ',', '"', 'c', 'o', 'n', 't', 'e', 'n', 't', '_', 'd', 'e', 'l', 't', 'a',
      '"', ':', '"'] := rfl

theorem dataLit3 : ("\",\"finished\":" : String).data =
    ['"', ',', '"', 'f', 'i', 'n', 'i', 's', 'h', 'e', 'd', '"', ':'] := rfl

theorem dataLitT : ("true" : String).data = ['t', 'r', 'u', 'e'] := rfl

theorem dataLitF : ("false" : String).data = ['f', 'a', 'l', 's', 'e'] := rfl

theorem parseValue_chunk (c : Chunk) (hc : safeL c.content.data) (hd : safeL c.delta.data)
    (f : Nat) (rest : List Char) :
    parseValue (f+5) (chunkChars c ++ rest) = some (chunkJson c, rest) := by
  cases hb : c.finished
  · have e : chunkChars c ++ rest =
        '{' :: '"' :: 'c' :: 'o' :: 'n' :: 't' :: 'e' :: 'n' :: 't' :: '"' :: ':' :: '"' ::
          (c.content.data ++ '"' ::
            (',' :: '"' :: 'c' :: 'o' :: 'n' :: 't' :: 'e' :: 'n' :: 't' :: '_' :: 'd' ::
              'e' :: 'l' :: 't' :: 'a' :: '"' :: ':' :: '"' ::
              (c.delta.data ++ '"' ::
                (',' :: '"' :: 'f' :: 'i' :: 'n' :: 'i' :: 's' :: 'h' :: 'e' :: 'd' :: '"' ::
                  ':' :: 'f' :: 'a' :: 'l' :: 's' :: 'e' :: '}' :: rest)))) := by
      simp [chunkChars, hb, dataLit1, dataLit2, dataLit3, dataLitF]
    rw [e, step0s f c.content.data hc]
    show parseMembers (f+1+2)
        ('"' :: 'c' :: 'o' :: 'n' :: 't' :: 'e' :: 'n' :: 't' :: '_' :: 'd' :: 'e' :: 'l' ::
          't' :: 'a' :: '"' :: ':' :: '"' ::
          (c.delta.data ++ '"' ::
            (',' :: '"' :: 'f' :: 'i' :: 'n' :: 'i' :: 's' :: 'h' :: 'e' :: 'd' :: '"' ::
              ':' :: 'f' :: 'a' :: 'l' :: 's' :: 'e' :: '}' :: rest)))
        [("content", Json.str c.content)] = some (chunkJson c, rest)
    rw [step1s (f+1) c.delta.data hd]
    show parseMembers (f+2)
        ('"' :: 'f' :: 'i' :: 'n' :: 'i' :: 's' :: 'h' :: 'e' :: 'd' :: '"' :: ':' ::
          'f' :: 'a' :: 'l' :: 's' :: 'e' :: '}' :: rest)
        ([("content", Json.str c.content)] ++ [("content_delta", Json.str c.delta)]) =
      some (chunkJson c, rest)
    rw [stepFinF f]
    simp [chunkJson, hb]
  · have e : chunkChars c ++ rest =
        '{' :: '"' :: 'c' :: 'o' :: 'n' :: 't' :: 'e' :: 'n' :: 't' :: '"' :: ':' :: '"' ::
          (c.content.data ++ '"' ::
            (',' :: '"' :: 'c' :: 'o' :: 'n' :: 't' :: 'e' :: 'n' :: 't' :: '_' :: 'd' ::
              'e' :: 'l' :: 't' :: 'a' :: '"' :: ':' :: '"' ::
              (c.delta.data ++ '"' ::
                (',' :: '"' :: 'f' :: 'i' :: 'n' :: 'i' :: 's' :: 'h' :: 'e' :: 'd' :: '"' ::
                  ':' :: 't' :: 'r' :: 'u' :: 'e' :: '}' :: rest)))) := by
      simp [chunkChars, hb, dataLit1, dataLit2, dataLit3, dataLitT]
    rw [e, step0s f c.content.data hc]
    show parseMembers (f+1+2)
        ('"' :: 'c' :: 'o' :: 'n' :: 't' :: 'e' :: 'n' :: 't' :: '_' :: 'd' :: 'e' :: 'l' ::
          't' :: 'a' :: '"' :: ':' :: '"' ::
          (c.delta.data ++ '"' ::
            (',' :: '"' :: 'f' :: 'i' :: 'n' :: 'i' :: 's' :: 'h' :: 'e' :: 'd' :: '"' ::
              ':' :: 't' :: 'r' :: 'u' :: 'e' :: '}' :: rest)))
        [("content", Json.str c.content)] = some (chunkJson c, rest)
    rw [step1s (f+1) c.delta.data hd]
    show parseMembers (f+2)
        ('"' :: 'f' :: 'i' :: 'n' :: 'i' :: 's' :: 'h' :: 'e' :: 'd' :: '"' :: ':' ::
          't' :: 'r' :: 'u' :: 'e' :: '}' :: rest)
        ([("content", Json.str c.content)] ++ [("content_delta", Json.str c.delta)]) =
      some (chunkJson c, rest)
    rw [stepFinT f]
    simp [chunkJson, hb]

end Openaidy

namespace Openaidy

theorem jsonParse_chunk (c : Chunk) (hc : safeL c.content.data) (hd : safeL c.delta.data) :
    jsonParse ⟨chunkChars c⟩ = some (chunkJson c) := by
  have hlen : 12 ≤ (chunkChars c).length := by
    rw [chunkChars]
    simp [List.length_append, dataLit1]
  obtain ⟨g, hg⟩ : ∃ g, (chunkChars c).length + 1 = g + 5 :=
    ⟨(chunkChars c).length - 4, by omega⟩
  unfold jsonParse
  rw [show (⟨chunkChars c⟩ : String).data = chunkChars c from rfl, hg]
  have hp := parseValue_chunk c hc hd g []
  rw [List.append_nil] at hp
  rw [hp]
  rfl

theorem processMsg_chunk (st : Option Json) (c : Chunk) (hc : safeL c.content.data)
    (hd : safeL c.delta.data) :
    processMsg st ⟨chunkChars c⟩ =
      (if c.finished then
        ([chunkEv c, Ev.complete (some (.str c.content))], some (chunkJson c), true)
       else ([chunkEv c], some (chunkJson c), false)) := by
  have h1 : getProp (chunkJson c) "content" = .ok (some (.str c.content)) := rfl
  have h2 : getProp (chunkJson c) "content_delta" = .ok (some (.str c.delta)) := rfl
  have h3 : getProp (chunkJson c) "finished" = .ok (some (.bool c.finished)) := rfl
  simp only [processMsg, jsonParse_chunk c hc hd, h1, h2, h3, truthy, chunkEv]

theorem extractMsgs_encodeChunk (c : Chunk) (hc : safeL c.content.data)
    (hd : safeL c.delta.data) :
    extractMsgs (encodeChunk c) = [⟨chunkChars c⟩] := by
  have toNat_ne : ∀ ch : Char, 0x20 ≤ ch.toNat → ch ≠ '\n' := by
    intro ch h heq
    rw [heq] at h
    exact absurd h (by decide)
  have mlitM : ∀ ch : Char, ch ∈ marker → ch ≠ '\n' := by decide
  have mlit1 : ∀ ch : Char,
      ch ∈ (['{', '"', 'c', 'o', 'n', 't', 'e', 'n', 't', '"', ':', '"'] : List Char) →
      ch ≠ '\n' := by decide
  have mlit2 : ∀ ch : Char,
      ch ∈ (['"', ',', '"', 'c', 'o', 'n', 't', 'e', 'n', 't', '_', 'd', 'e', 'l', 't', 'a',
        '"', ':', '"'] : List Char) → ch ≠ '\n' := by decide
  have mlit3 : ∀ ch : Char,
      ch ∈ (['"', ',', '"', 'f', 'i', 'n', 'i', 's', 'h', 'e', 'd', '"', ':'] : List Char) →
      ch ≠ '\n' := by decide
  have mlitT : ∀ ch : Char, ch ∈ (['t', 'r', 'u', 'e'] : List Char) → ch ≠ '\n' := by decide
  have mlitF : ∀ ch : Char, ch ∈ (['f', 'a', 'l', 's', 'e'] : List Char) → ch ≠ '\n' := by
    decide
  have hnl : ∀ ch ∈ marker ++ chunkChars c, ch ≠ '\n' := by
    intro ch hch
    rcases List.mem_append.mp hch with hm | hcc
    · exact mlitM ch hm
    · rw [chunkChars, dataLit1, dataLit2, dataLit3] at hcc
      simp only [List.mem_append, List.mem_singleton] at hcc
      rcases hcc with ((((((h | h) | h) | h) | h) | h) | h)
      · exact mlit1 ch h
      · exact toNat_ne ch (hc ch h).2.2
      · exact mlit2 ch h
      · exact toNat_ne ch (hd ch h).2.2
      · exact mlit3 ch h
      · cases hb : c.finished <;> rw [hb] at h
        · exact mlitF ch (by simpa [dataLitF] using h)
        · exact mlitT ch (by simpa [dataLitT] using h)
      · rw [h]
        decide
  unfold extractMsgs encodeChunk
  rw [show (⟨marker ++ chunkChars c ++ ['\n', '\n']⟩ : String).data =
      marker ++ chunkChars c ++ ['\n', '\n'] from rfl]
  have hsplit : splitSeps (marker ++ chunkChars c ++ ['\n', '\n']) =
      (marker ++ chunkChars c) :: splitSeps [] := by
    have h := splitSeps_noNl (marker ++ chunkChars c) hnl []
    simpa [List.append_assoc] using h
  rw [hsplit]
  rfl

end Openaidy

namespace Openaidy

theorem safeStrB_safeL {s : String} (h : safeStrB s = true) : safeL s.data := by
  intro ch hch
  simp only [safeStrB, List.all_eq_true, Bool.and_eq_true, Bool.not_eq_true',
    beq_eq_false_iff_ne, ne_eq, decide_eq_true_eq] at h
  obtain ⟨⟨h1, h2⟩, h3⟩ := h ch hch
  exact ⟨h1, h2, h3⟩

theorem runReads_append : ∀ (xs ys : List String) (st : Option Json),
    runReads st (xs ++ ys) =
      match runReads st xs with
      | (e1, st1, true) => (e1, st1, true)
      | (e1, st1, false) =>
        match runReads st1 ys with
        | (e2, st2, r) => (e1 ++ e2, st2, r) := by
  intro xs
  induction xs with
  | nil =>
    intro ys st
    rcases h : runReads st ys with ⟨e2, st2, r⟩
    simp [runReads, h]
  | cons x xs ih =>
    intro ys st
    rcases hp : processMsgs st (extractMsgs x) with ⟨evs, st1, ret⟩
    cases ret
    · rcases h2 : runReads st1 xs with ⟨e2, st2, r2⟩
      cases r2
      · rcases h3 : runReads st2 ys with ⟨e3, st3, r3⟩
        simp [runReads, hp, ih, h2, h3, List.append_assoc]
      · simp [runReads, hp, ih, h2]
    · simp [runReads, hp]

theorem runReads_unfinished : ∀ (cs : List Chunk),
    (∀ c ∈ cs, c.finished = false ∧ safeL c.content.data ∧ safeL c.delta.data) →
    ∀ st, ∃ st1, runReads st (cs.map encodeChunk) = (cs.map chunkEv, st1, false) := by
  intro cs
  induction cs with
  | nil => exact fun _ st => ⟨st, rfl⟩
  | cons c cs ih =>
    intro h st
    obtain ⟨hf, hc, hd⟩ := h c (by simp)
    obtain ⟨st1, hst1⟩ := ih (fun c1 h1 => h c1 (by simp [h1])) (some (chunkJson c))
    refine ⟨st1, ?_⟩
    have hm : processMsgs st (extractMsgs (encodeChunk c)) =
        ([chunkEv c], some (chunkJson c), false) := by
      rw [extractMsgs_encodeChunk c hc hd]
      simp [processMsgs, processMsg_chunk st c hc hd, hf]
    simp [List.map_cons, runReads, hm, hst1]

theorem foldl_chunkEvs : ∀ (l : List Chunk) (s : AppSt),
    (l.map chunkEv).foldl applyEv s =
      ⟨s.messages, ((l.map chunkEv).foldl applyEv s).streaming, s.isLoading⟩ := by
  intro l
  induction l with
  | nil => exact fun s => rfl
  | cons c l ih =>
    intro s
    rw [List.map_cons, List.foldl_cons, ih (applyEv s (chunkEv c))]
    rfl

/-- C2: for a streaming call whose backend emission is well formed — every
chunk safe to serialise, only the final chunk finished, and the final
content equal to the concatenation of all deltas in order (the spec-modelled
producer invariant, spec section 3) — the client delivers exactly the chunk
events in order, the concatenation of the delivered deltas equals the final
content, and the turn ends with exactly one assistant message holding that
content; instantiated by the two-chunk Hi / Hi-there example. -/
theorem c2_delta_concat (init : List Chunk) (lastC : Chunk) (st : AppSt) (content : String)
    (hsafe : ∀ c ∈ init ++ [lastC], safeStrB c.content = true ∧ safeStrB c.delta = true)
    (hinit : ∀ c ∈ init, c.finished = false)
    (hlast : lastC.finished = true)
    (hcum : lastC.content = String.join ((init ++ [lastC]).map fun c => c.delta)) :
    sendChatCompletionStream ((init ++ [lastC]).map encodeChunk) =
      ((init ++ [lastC]).map chunkEv) ++
        [Ev.complete (some (.str (String.join ((init ++ [lastC]).map fun c => c.delta))))] ∧
    handleSendMessageStream st content ((init ++ [lastC]).map encodeChunk) =
      ⟨st.messages ++ [⟨"user", some (.str content)⟩,
        ⟨"assistant", some (.str (String.join ((init ++ [lastC]).map fun c => c.delta)))⟩],
        none, false⟩ := by
  have hsafeInit : ∀ c ∈ init, c.finished = false ∧ safeL c.content.data ∧ safeL c.delta.data := by
    intro c hcm
    obtain ⟨h1, h2⟩ := hsafe c (by simp [hcm])
    exact ⟨hinit c hcm, safeStrB_safeL h1, safeStrB_safeL h2⟩
  obtain ⟨hlc, hld⟩ := hsafe lastC (by simp)
  have hlc' := safeStrB_safeL hlc
  have hld' := safeStrB_safeL hld
  obtain ⟨st1, h1⟩ := runReads_unfinished init hsafeInit none
  have hm : processMsgs st1 (extractMsgs (encodeChunk lastC)) =
      ([chunkEv lastC, Ev.complete (some (.str lastC.content))],
        some (chunkJson lastC), true) := by
    rw [extractMsgs_encodeChunk lastC hlc' hld']
    simp [processMsgs, processMsg_chunk st1 lastC hlc' hld', hlast]
  have hrr : runReads none ((init ++ [lastC]).map encodeChunk) =
      (init.map chunkEv ++ [chunkEv lastC, Ev.complete (some (.str lastC.content))],
        some (chunkJson lastC), true) := by
    rw [List.map_append, runReads_append, h1]
    simp [runReads, hm]
  have hev : sendChatCompletionStream ((init ++ [lastC]).map encodeChunk) =
      init.map chunkEv ++ [chunkEv lastC, Ev.complete (some (.str lastC.content))] := by
    unfold sendChatCompletionStream
    rw [hrr]
  constructor
  · rw [hev, ← hcum]
    simp [List.map_append, List.append_assoc]
  · unfold handleSendMessageStream
    rw [hev]
    rw [show init.map chunkEv ++ [chunkEv lastC, Ev.complete (some (.str lastC.content))] =
        ((init ++ [lastC]).map chunkEv) ++ [Ev.complete (some (.str lastC.content))] by
      simp [List.map_append, List.append_assoc]]
    rw [List.foldl_append, foldl_chunkEvs]
    simp [applyEv, List.append_assoc, ← hcum]
    rw [hcum]
    simp [List.map_append]

end Openaidy

namespace Openaidy

/-- C2 witness: the spec example — chunks Hi then Hi-there — yields one
assistant message with content "Hi there". -/
theorem c2_witness :
    handleSendMessageStream ⟨[], none, false⟩ ("hello")
        (([(⟨"Hi", "Hi", false⟩ : Chunk)] ++
          [(⟨"Hi there", " there", true⟩ : Chunk)]).map encodeChunk) =
      ⟨[⟨"user", some (.str "hello")⟩, ⟨"assistant", some (.str "Hi there")⟩],
        none, false⟩ :=
  (c2_delta_concat [(⟨"Hi", "Hi", false⟩ : Chunk)] ⟨"Hi there", " there", true⟩ ⟨[], none, false⟩
    ("hello") (by decide) (by decide) rfl rfl).2.trans rfl

end Openaidy
